import Mathlib

/-!
Verification development for the `neon` event module (cross-thread task
scheduling onto the single JavaScript/managed thread).

The repository snapshot contains `src/event/mod.rs` (feature gating and
re-exports). The bodies of `event_queue.rs` and `event_handler.rs` are not
present in the snapshot, so the queue, keep-alive counter, driver, and
handler semantics below are modelled from the specification's words; the
feature-gating model at the end is translated directly from
`src/event/mod.rs`.
-/

/-- Modelled from the spec (the `event_queue.rs` implementation is missing
from the snapshot): a Task is one deferred unit of managed-context work,
identified by `id`; `fails` records whether its execution inside the
managed context signals failure. -/
structure QTask where
  id : Nat
  fails : Bool
deriving DecidableEq, Repr

/-- Modelled from the spec: the only producer-observable error of `send`:
the managed context has been torn down and the channel permanently closed. -/
inductive SendError where
  | queueClosed
deriving DecidableEq, Repr

/-- Modelled from the spec (missing `event_queue.rs`): the observable state
of one TaskQueue channel and its driver. `queue` is the FIFO channel
contents in arrival order; `closed` records permanent channel teardown;
`sent` is the total serialization order in which `send` calls returned
successfully; `executed` is the order the driver ran the tasks; `discarded`
holds tasks dropped unrun at teardown; `reported` is the host's standard
uncaught-failure path, in report order. -/
structure SysState where
  queue : List QTask
  closed : Bool
  sent : List QTask
  executed : List QTask
  discarded : List QTask
  reported : List QTask
deriving DecidableEq, Repr

/-- Initial state of a freshly created queue: empty, open, nothing run. -/
def initState : SysState :=
  { queue := [], closed := false, sent := [], executed := [], discarded := [], reported := [] }

/-- Modelled from the spec: `send(task)` enqueues `task` and returns
immediately; it succeeds unless the channel is closed, in which case it
fails with `QueueClosed` and the task is dropped without running. The
channel is unbounded, so an open-channel send always succeeds. -/
def send (s : SysState) (t : QTask) : SysState × Option SendError :=
  if s.closed then (s, some SendError.queueClosed)
  else ({ s with queue := s.queue ++ [t], sent := s.sent ++ [t] }, none)

/-- Modelled from the spec: the driver pops exactly one QTask from the front
of the channel and executes it to completion with exclusive context access;
a QTask that signals failure is routed to the host's uncaught-failure path
and the driver neither retries it nor stops. -/
def execOne (s : SysState) : SysState :=
  match s.queue with
  | [] => s
  | t :: ts =>
      { s with
        queue := ts
        executed := s.executed ++ [t]
        reported := if t.fails then s.reported ++ [t] else s.reported }

/-- Modelled from the spec: teardown of the managed context permanently
closes the channel; already-enqueued Tasks that have not yet run are
discarded rather than executed. -/
def closeQueue (s : SysState) : SysState :=
  { s with closed := true, queue := [], discarded := s.discarded ++ s.queue }

/-- Events observable at the channel: a producer-side send, one driver
execution step, or teardown of the managed context. -/
inductive SysEvent where
  | send (t : QTask)
  | exec
  | close
deriving DecidableEq, Repr

/-- One transition of the channel state. -/
def sysStep (s : SysState) : SysEvent → SysState
  | SysEvent.send t => (send s t).1
  | SysEvent.exec => execOne s
  | SysEvent.close => closeQueue s

/-- Running a sequence of events from a state. -/
def sysRun (s : SysState) : List SysEvent → SysState :=
  List.foldl sysStep s

/-- The inductive invariant of the channel: the successful-send order is
exactly the executed order, followed by the still-pending queue, followed
by the tasks discarded at teardown; the uncaught-failure report list is
exactly the failing executed tasks in execution order. -/
def Good (s : SysState) : Prop :=
  s.sent = s.executed ++ s.queue ++ s.discarded ∧
  (s.closed = false → s.discarded = []) ∧
  (s.closed = true → s.queue = []) ∧
  s.reported = s.executed.filter (fun t => t.fails)

theorem good_initState : Good initState := by
  refine ⟨rfl, fun _ => rfl, fun h => ?_, rfl⟩
  simp [initState] at h

theorem good_step (s : SysState) (e : SysEvent) (h : Good s) : Good (sysStep s e) := by
  obtain ⟨h1, h2, h3, h4⟩ := h
  cases e with
  | send t =>
      by_cases hc : s.closed
      · simp only [sysStep, send, hc, if_true]
        exact ⟨h1, h2, h3, h4⟩
      · simp only [Bool.not_eq_true] at hc
        simp only [sysStep, send, hc, Bool.false_eq_true, if_false]
        refine ⟨?_, fun _ => h2 hc, fun hcl => ?_, h4⟩
        · rw [h1, h2 hc]
          simp
        · exact absurd hcl (by simp [hc])
  | exec =>
      cases hq : s.queue with
      | nil =>
          simp only [sysStep, execOne, hq]
          exact ⟨h1, h2, h3, h4⟩
      | cons t ts =>
          simp only [sysStep, execOne, hq]
          refine ⟨?_, h2, ?_, ?_⟩
          · rw [h1, hq]; simp
          · intro hcl
            exact absurd hq (by simp [h3 hcl])
          · rw [h4]
            cases hf : t.fails <;> simp [hf]
  | close =>
      by_cases hc : s.closed
      · refine ⟨?_, by simp [sysStep, closeQueue], by simp [sysStep, closeQueue], ?_⟩
        · simp only [sysStep, closeQueue]
          rw [h1, h3 hc]
          simp
        · simp only [sysStep, closeQueue]
          exact h4
      · simp only [Bool.not_eq_true] at hc
        refine ⟨?_, by simp [sysStep, closeQueue], by simp [sysStep, closeQueue], ?_⟩
        · simp only [sysStep, closeQueue]
          rw [h1, h2 hc]
          simp
        · simp only [sysStep, closeQueue]
          exact h4

theorem good_run (s : SysState) (es : List SysEvent) (h : Good s) : Good (sysRun s es) := by
  induction es generalizing s with
  | nil => exact h
  | cons e es ih => exact ih (sysStep s e) (good_step s e h)

theorem good_reachable (es : List SysEvent) : Good (sysRun initState es) :=
  good_run initState es good_initState

/-- Modelled from the spec (missing `event_queue.rs`): a keep-alive event:
cloning a send handle (increment) or dropping one (decrement). -/
inductive KAEvent where
  | clone
  | drop
deriving DecidableEq, Repr

/-- Modelled from the spec: the KeepAliveCounter together with the host
notifications it has fired: `holds` counts "do not exit, work may still
arrive" notifications, `releases` counts "safe to consider exit" ones. The
count is an integer so that the never-negative property is expressible. -/
structure KAState where
  count : Int
  holds : Nat
  releases : Nat
deriving DecidableEq, Repr

/-- Modelled from the spec: atomic increment/decrement with a
compare-and-act at the 0-1 boundary: an increment seeing count 0 fires one
hold notification, a decrement seeing count 1 fires one release. -/
def kaStep (s : KAState) : KAEvent → KAState
  | KAEvent.clone =>
      { count := s.count + 1
        holds := if s.count = 0 then s.holds + 1 else s.holds
        releases := s.releases }
  | KAEvent.drop =>
      { count := s.count - 1
        holds := s.holds
        releases := if s.count = 1 then s.releases + 1 else s.releases }

/-- Running a sequence of clone/drop events on the counter. -/
def kaRun (s : KAState) : List KAEvent → KAState :=
  List.foldl kaStep s

/-- A fresh counter: no handles, no notifications yet. -/
def kaInit : KAState :=
  { count := 0, holds := 0, releases := 0 }

/-- Number of clone events in a sequence. -/
def kaClones (es : List KAEvent) : Nat :=
  es.count KAEvent.clone

/-- Number of drop events in a sequence. -/
def kaDrops (es : List KAEvent) : Nat :=
  es.count KAEvent.drop

/-- Specification-side count of 0-to-1 transitions along the trajectory of
the counter started at `c`: positions whose pre-state count is 0 and whose
post-state count is 1. Written independently of the notification mechanism
in `kaStep`. -/
def transitions01 (c : Int) : List KAEvent → Nat
  | [] => 0
  | e :: es =>
      let c' := c + (match e with | KAEvent.clone => 1 | KAEvent.drop => -1)
      (if c = 0 ∧ c' = 1 then 1 else 0) + transitions01 c' es

/-- Specification-side count of 1-to-0 transitions along the trajectory. -/
def transitions10 (c : Int) : List KAEvent → Nat
  | [] => 0
  | e :: es =>
      let c' := c + (match e with | KAEvent.clone => 1 | KAEvent.drop => -1)
      (if c = 1 ∧ c' = 0 then 1 else 0) + transitions10 c' es

theorem kaRun_count (s : KAState) (es : List KAEvent) :
    (kaRun s es).count = s.count + (kaClones es : Int) - (kaDrops es : Int) := by
  induction es generalizing s with
  | nil => simp [kaRun, kaClones, kaDrops]
  | cons e es ih =>
      cases e with
      | clone =>
          rw [show kaRun s (KAEvent.clone :: es) = kaRun (kaStep s KAEvent.clone) es from rfl,
            ih]
          simp [kaStep, kaClones, kaDrops, List.count_cons]
          ring
      | drop =>
          rw [show kaRun s (KAEvent.drop :: es) = kaRun (kaStep s KAEvent.drop) es from rfl,
            ih]
          simp [kaStep, kaClones, kaDrops, List.count_cons]
          ring

theorem kaRun_holds (s : KAState) (es : List KAEvent) :
    (kaRun s es).holds = s.holds + transitions01 s.count es := by
  induction es generalizing s with
  | nil => simp [kaRun, transitions01]
  | cons e es ih =>
      cases e with
      | clone =>
          rw [show kaRun s (KAEvent.clone :: es) = kaRun (kaStep s KAEvent.clone) es from rfl,
            ih]
          by_cases h0 : s.count = 0
          · simp [kaStep, transitions01, h0]
            omega
          · have h1 : ¬(s.count = 0 ∧ s.count + 1 = 1) := by
              intro hx; exact h0 hx.1
            simp [kaStep, transitions01, h0, h1]
      | drop =>
          rw [show kaRun s (KAEvent.drop :: es) = kaRun (kaStep s KAEvent.drop) es from rfl,
            ih]
          have h1 : ¬(s.count = 0 ∧ s.count + -1 = 1) := by
            intro hx; omega
          simp [kaStep, transitions01, h1, sub_eq_add_neg]

theorem kaRun_releases (s : KAState) (es : List KAEvent) :
    (kaRun s es).releases = s.releases + transitions10 s.count es := by
  induction es generalizing s with
  | nil => simp [kaRun, transitions10]
  | cons e es ih =>
      cases e with
      | clone =>
          rw [show kaRun s (KAEvent.clone :: es) = kaRun (kaStep s KAEvent.clone) es from rfl,
            ih]
          have h1 : ¬(s.count = 1 ∧ s.count + 1 = 0) := by
            intro hx; omega
          simp [kaStep, transitions10, h1]
      | drop =>
          rw [show kaRun s (KAEvent.drop :: es) = kaRun (kaStep s KAEvent.drop) es from rfl,
            ih]
          by_cases h0 : s.count = 1
          · simp [kaStep, transitions10, h0]
            omega
          · have h1 : ¬(s.count = 1 ∧ s.count + -1 = 0) := by
              intro hx; exact h0 hx.1
            simp [kaStep, transitions10, h0, h1, sub_eq_add_neg]

/-- Modelled from the spec (missing `event_queue.rs`): one wake of the
driver. The first argument is the channel contents observed at wake; the
second lists, for each executed task, the batch of tasks that arrived
during its execution. Each loop iteration pops exactly one task from the
front, executes it, appends the tasks that arrived meanwhile, and re-checks
the queue; the loop yields only on observing an empty queue. Returns the
execution order and the arrival batches left unconsumed at yield. -/
def drainRun : List QTask → List (List QTask) → List QTask × List (List QTask)
  | [], rest => ([], rest)
  | t :: ts, [] =>
      let r := drainRun ts []
      (t :: r.1, r.2)
  | t :: ts, a :: rest =>
      let r := drainRun (ts ++ a) rest
      (t :: r.1, r.2)
termination_by q as => q.length + as.flatten.length + as.length
decreasing_by
  all_goals simp [List.flatten]
  all_goals omega

theorem drainRun_nil_arrivals (q : List QTask) : drainRun q [] = (q, []) := by
  induction q with
  | nil => simp [drainRun]
  | cons t ts ih => simp [drainRun, ih]

theorem drainRun_spec (as : List (List QTask)) :
    ∀ q : List QTask, ∃ k, k ≤ as.length ∧
      drainRun q as = (q ++ (as.take k).flatten, as.drop k) := by
  induction as with
  | nil =>
      intro q
      exact ⟨0, Nat.le_refl 0, by simp [drainRun_nil_arrivals q]⟩
  | cons a rest ih =>
      intro q
      cases q with
      | nil => exact ⟨0, Nat.zero_le _, by simp [drainRun]⟩
      | cons t ts =>
          obtain ⟨k, hk, heq⟩ := ih (ts ++ a)
          refine ⟨k + 1, Nat.succ_le_succ hk, ?_⟩
          simp [drainRun, heq, List.flatten]

/-- Modelled from the spec: the driver drains only while the managed
context is available; with no context it executes nothing and the queue
and pending arrivals are untouched. Returns (execution order, channel
contents at yield, unconsumed arrival batches). -/
def driverWake (ctx : Bool) (q : List QTask) (as : List (List QTask)) :
    List QTask × List QTask × List (List QTask) :=
  if ctx then
    let r := drainRun q as
    (r.1, [], r.2)
  else ([], q, as)

/-- Modelled from the spec (missing `event_queue.rs`): drain the channel of
a state to completion with no concurrent arrivals: the driver re-checks the
queue after each execution and stops at the first empty check. -/
def drainState (s : SysState) : SysState :=
  match h : s.queue with
  | [] => s
  | _ :: _ => drainState (execOne s)
termination_by s.queue.length
decreasing_by
  simp [execOne, h]

theorem drainState_len_spec (n : Nat) :
    ∀ s : SysState, s.queue.length = n →
      (drainState s).queue = [] ∧ (drainState s).executed = s.executed ++ s.queue ∧
      (drainState s).closed = s.closed ∧ (drainState s).sent = s.sent := by
  induction n with
  | zero =>
      intro s h
      have hq : s.queue = [] := List.eq_nil_of_length_eq_zero h
      rw [drainState, hq]
      simp [hq]
  | succ n ih =>
      intro s h
      cases hq : s.queue with
      | nil => rw [hq] at h; simp at h
      | cons t ts =>
          have hstep : drainState s = drainState (execOne s) := by
            rw [drainState, hq]
          have hq' : (execOne s).queue = ts := by simp [execOne, hq]
          have hlen : (execOne s).queue.length = n := by
            rw [hq']
            rw [hq] at h
            simpa using h
          obtain ⟨i1, i2, i3, i4⟩ := ih (execOne s) hlen
          rw [hstep]
          refine ⟨i1, ?_, ?_, ?_⟩
          · rw [i2, hq']
            simp [execOne, hq]
          · rw [i3]; simp [execOne, hq]
          · rw [i4]; simp [execOne, hq]

theorem drainState_spec (s : SysState) :
    (drainState s).queue = [] ∧ (drainState s).executed = s.executed ++ s.queue ∧
      (drainState s).closed = s.closed ∧ (drainState s).sent = s.sent :=
  drainState_len_spec s.queue.length s rfl

/-- Modelled from the spec (missing `event_queue.rs`): a thread-safe send
handle: a reference to the shared underlying channel (identified by
`chan`) and to the shared KeepAliveCounter. -/
structure QueueHandle where
  chan : Nat
deriving DecidableEq, Repr

/-- Modelled from the spec: `clone()` returns a new thread-safe send handle
referencing the same channel and increments the KeepAliveCounter; it is a
total operation (never fails). -/
def cloneHandle (h : QueueHandle) (ka : KAState) : QueueHandle × KAState :=
  ({ chan := h.chan }, kaStep ka KAEvent.clone)

/-- Modelled from the spec: dropping a send handle decrements the
KeepAliveCounter; the decrement that reaches zero fires the "safe to
consider exit" host notification. -/
def dropHandle (ka : KAState) : KAState :=
  kaStep ka KAEvent.drop

/-- Modelled from the spec (missing `event_handler.rs`): a TaskHandler
binds exactly one managed callback, held as a PersistentHandle (`callback`
is its slot in the persistent-reference table), at construction time;
`cbFails` records whether the bound callback signals failure when invoked. -/
structure TaskHandler where
  callback : Nat
  cbFails : Bool
deriving DecidableEq, Repr

/-- Modelled from the spec: the one Task a TaskHandler builds per
submission: invoke the bound callback with the given arguments. -/
def mkTask (th : TaskHandler) (args : Nat) : QTask :=
  { id := Nat.pair th.callback args, fails := th.cbFails }

/-- Modelled from the spec (missing `event_handler.rs`): `schedule(args)`
is non-blocking: it builds the invocation of the bound callback with
`args`, enqueues it on the channel, and returns immediately; it fails with
`QueueClosed` exactly when the channel has been torn down. Written from the
TaskHandler section of the spec, to be compared with `send`. -/
def schedule (th : TaskHandler) (s : SysState) (args : Nat) : SysState × Option SendError :=
  match s.closed with
  | true => (s, some SendError.queueClosed)
  | false =>
      let t := mkTask th args
      ({ s with queue := s.queue ++ [t], sent := s.sent ++ [t] }, none)

/-- Modelled from the spec: errors observable from the blocking submission
path: the wait timed out, or the channel was closed. -/
inductive ScheduleError where
  | timeout
  | queueClosed
deriving DecidableEq, Repr

/-- Modelled from the spec (missing `event_handler.rs`):
`schedule_blocking(args, timeout)` submits the invocation of the bound
callback and blocks the calling producer thread until the managed thread
has executed it and delivered the result (`execLatency` time units after
submission), or until `timeout` elapses, whichever is first. On timeout it
returns a `Timeout` failure but does not cancel the Task: the managed
thread still drains the channel, so the resulting state reflects the
Task's execution either way. -/
def schedule_blocking (th : TaskHandler) (s : SysState) (args : Nat)
    (execLatency timeout : Nat) : SysState × Except ScheduleError Unit :=
  if s.closed then (s, Except.error ScheduleError.queueClosed)
  else
    (drainState (send s (mkTask th args)).1,
      if execLatency ≤ timeout then Except.ok () else Except.error ScheduleError.timeout)

/-- Modelled from the spec (missing implementation of persistent-handle
disposal): an event in the life of one shared managed object: a thread
other than the managed thread drops one clone of a PersistentHandle
(`dropClone`), or the managed thread runs one enqueued disposal Task
(`runDisposal`). -/
inductive PHEvent where
  | dropClone
  | runDisposal
deriving DecidableEq, Repr

/-- Modelled from the spec: the disposal state of one managed object held
through PersistentHandle clones. `slots` is the number of entries still
registered for it in the managed runtime's persistent-reference table (one
per clone not yet disposed), `pending` the number of disposal Tasks
enqueued but not yet run on the managed thread, and `frees` how many times
the underlying managed object has actually been released. -/
structure PHState where
  slots : Nat
  pending : Nat
  frees : Nat
deriving DecidableEq, Repr

/-- Modelled from the spec: dropping a clone on a non-managed thread never
releases anything synchronously; it only enqueues one disposal Task. -/
def phDrop (s : PHState) : PHState :=
  { s with pending := s.pending + 1 }

/-- Modelled from the spec: the managed thread runs one enqueued disposal
Task: it removes one persistent-reference table entry, and the removal that
empties the table releases the underlying managed object. -/
def phRunDisposal (s : PHState) : PHState :=
  match s.pending with
  | 0 => s
  | p + 1 =>
      { slots := s.slots - 1
        pending := p
        frees := if s.slots = 1 then s.frees + 1 else s.frees }

/-- One transition of the disposal state. -/
def phStep (s : PHState) : PHEvent → PHState
  | PHEvent.dropClone => phDrop s
  | PHEvent.runDisposal => phRunDisposal s

/-- Running a sequence of disposal events. -/
def phRun (s : PHState) : List PHEvent → PHState :=
  List.foldl phStep s

/-- Number of clone drops in a sequence. -/
def phDrops (es : List PHEvent) : Nat :=
  es.count PHEvent.dropClone

/-- Number of executed disposal Tasks in a sequence. -/
def phRuns (es : List PHEvent) : Nat :=
  es.count PHEvent.runDisposal

theorem phRuns_append (es fs : List PHEvent) : phRuns (es ++ fs) = phRuns es + phRuns fs := by
  simp [phRuns, List.count_append]

theorem phDrops_append (es fs : List PHEvent) : phDrops (es ++ fs) = phDrops es + phDrops fs := by
  simp [phDrops, List.count_append]

theorem phRuns_one_drop : phRuns [PHEvent.dropClone] = 0 := rfl

theorem phRuns_one_run : phRuns [PHEvent.runDisposal] = 1 := rfl

theorem phDrops_one_drop : phDrops [PHEvent.dropClone] = 1 := rfl

theorem phDrops_one_run : phDrops [PHEvent.runDisposal] = 0 := rfl

theorem phRun_spec (m : Nat) (es : List PHEvent)
    (hpre : ∀ n, phRuns (es.take n) ≤ phDrops (es.take n))
    (hm : phDrops es ≤ m) :
    phRun { slots := m, pending := 0, frees := 0 } es =
      { slots := m - phRuns es
        pending := phDrops es - phRuns es
        frees := if m ≤ phRuns es ∧ 1 ≤ m then 1 else 0 } := by
  induction es using List.reverseRecOn with
  | nil =>
      have h1 : phRuns ([] : List PHEvent) = 0 := rfl
      have h2 : phDrops ([] : List PHEvent) = 0 := rfl
      simp only [phRun, List.foldl_nil, h1, h2]
      simp only [PHState.mk.injEq]
      refine ⟨by omega, trivial, ?_⟩
      split_ifs <;> omega
  | append_singleton es e ih =>
      have hpre' : ∀ n, phRuns (es.take n) ≤ phDrops (es.take n) := by
        intro n
        rcases le_or_lt n es.length with hn | hn
        · have := hpre n
          rwa [List.take_append_of_le_length hn] at this
        · rw [List.take_of_length_le (le_of_lt hn)]
          have := hpre es.length
          rwa [List.take_append_of_le_length (le_refl _), List.take_length] at this
      have hre : phRuns es ≤ phDrops es := by
        have := hpre' es.length
        rwa [List.take_length] at this
      have hm' : phDrops es ≤ m := by
        have := phDrops_append es [e]
        omega
      have hfold : phRun { slots := m, pending := 0, frees := 0 } (es ++ [e]) =
          phStep (phRun { slots := m, pending := 0, frees := 0 } es) e := by
        simp [phRun, List.foldl_append]
      rw [hfold, ih hpre' hm']
      cases e with
      | dropClone =>
          rw [phRuns_append, phDrops_append, phRuns_one_drop, phDrops_one_drop]
          simp only [phStep, phDrop]
          simp only [PHState.mk.injEq]
          refine ⟨by omega, by omega, ?_⟩
          split_ifs <;> omega
      | runDisposal =>
          have hfull : phRuns es + 1 ≤ phDrops es := by
            have h0 := hpre (es ++ [PHEvent.runDisposal]).length
            rw [List.take_of_length_le (le_refl _)] at h0
            rw [phRuns_append, phDrops_append, phRuns_one_run, phDrops_one_run] at h0
            omega
          rw [phRuns_append, phDrops_append, phRuns_one_run, phDrops_one_run]
          obtain ⟨p, hp⟩ : ∃ p, phDrops es - phRuns es = p + 1 :=
            ⟨phDrops es - phRuns es - 1, by omega⟩
          simp only [phStep, phRunDisposal, hp]
          simp only [PHState.mk.injEq]
          refine ⟨by omega, by omega, ?_⟩
          split_ifs <;> omega

theorem closed_frozen (s : SysState) (es' : List SysEvent)
    (hc : s.closed = true) (hq : s.queue = []) :
    (sysRun s es').closed = true ∧ (sysRun s es').queue = [] ∧
    (sysRun s es').executed = s.executed ∧ (sysRun s es').sent = s.sent := by
  induction es' generalizing s with
  | nil => exact ⟨hc, hq, rfl, rfl⟩
  | cons e es ih =>
      have hstep : (sysStep s e).closed = true ∧ (sysStep s e).queue = [] ∧
          (sysStep s e).executed = s.executed ∧ (sysStep s e).sent = s.sent := by
        cases e with
        | send t => simp [sysStep, send, hc, hq]
        | exec => simp [sysStep, execOne, hq, hc]
        | close => simp [sysStep, closeQueue, hq]
      obtain ⟨a1, a2, a3, a4⟩ := hstep
      obtain ⟨b1, b2, b3, b4⟩ := ih (sysStep s e) a1 a2
      have hr : sysRun s (e :: es) = sysRun (sysStep s e) es := rfl
      rw [hr]
      exact ⟨b1, b2, by rw [b3, a3], by rw [b4, a4]⟩

/-- Translated from `src/event/mod.rs`: the four Cargo features the
module's cfg attributes mention, as free switches of one build. -/
structure FeatureSet where
  napi1 : Bool
  napi4 : Bool
  eventQueueApi : Bool
  eventHandlerApi : Bool
deriving DecidableEq, Repr

/-- Translated from `src/event/mod.rs` lines 129-133: the `event_queue`
submodule and the re-export of `EventQueue` and `EventQueueError` are under
`cfg(all(feature = "napi-4", feature = "event-queue-api"))`. -/
def eventQueueExported (f : FeatureSet) : Bool :=
  f.napi4 && f.eventQueueApi

/-- Translated from `src/event/mod.rs` lines 135-139: the `event_handler`
submodule and the re-export of `EventHandler` are under
`cfg(all(not(feature = "napi-1"), feature = "event-handler-api"))`. -/
def eventHandlerExported (f : FeatureSet) : Bool :=
  !f.napi1 && f.eventHandlerApi

/-- Translated from `src/event/mod.rs` lines 141-145: the build is rejected
with a compile-time error ("The EventHandler API is not supported with the
N-API backend") under `cfg(all(feature = "napi-1", feature = "event-handler-api"))`. -/
def eventCompileError (f : FeatureSet) : Bool :=
  f.napi1 && f.eventHandlerApi

theorem count_filter_fails (l : List QTask) (u : QTask) (hu : u.fails = true) :
    (l.filter (fun x => x.fails)).count u = l.count u := by
  induction l with
  | nil => rfl
  | cons a l ih =>
      by_cases ha : a.fails
      · simp [List.filter_cons, ha, List.count_cons, ih]
      · have hau : a ≠ u := by
          intro hau
          rw [hau] at ha
          exact ha hu
        simp [List.filter_cons, ha, List.count_cons, ih, hau]

theorem count_filter_not_fails (l : List QTask) (u : QTask) (hu : u.fails = false) :
    (l.filter (fun x => x.fails)).count u = 0 := by
  rw [List.count_eq_zero]
  intro hmem
  have := (List.mem_filter.mp hmem).2
  simp [hu] at this

/-- C1: Tasks sent through handles of the same root TaskQueue execute on
the managed thread in exactly the order the send calls returned: in every
reachable state the successful-send order equals the executed order
followed by the still-pending queue followed by the teardown-discarded
tasks; no task runs more often than it was sent; and when the queue has
drained with nothing discarded, the execution order is exactly the send
order (no reordering, no drops, no duplication). -/
theorem taskQueue_ordering (es : List SysEvent) :
    (sysRun initState es).sent =
      (sysRun initState es).executed ++ (sysRun initState es).queue ++
        (sysRun initState es).discarded ∧
    (∀ t : QTask,
      (sysRun initState es).executed.count t ≤ (sysRun initState es).sent.count t) ∧
    ((sysRun initState es).queue = [] → (sysRun initState es).discarded = [] →
      (sysRun initState es).executed = (sysRun initState es).sent) := by
  obtain ⟨h1, h2, h3, h4⟩ := good_reachable es
  refine ⟨h1, fun t => ?_, fun hq hd => ?_⟩
  · rw [h1]
    simp only [List.count_append]
    omega
  · rw [h1, hq, hd]
    simp

/-- C2: for every interleaving of clone/drop events in which no prefix
drops more handles than were cloned, the KeepAliveCounter never becomes
negative at any point of the run, the number of "do not exit" host
notifications fired equals the number of 0-to-1 transitions of the count
trajectory (exactly one each, none while the count stays at zero), and the
number of "allow exit" notifications equals the number of 1-to-0
transitions. -/
theorem keepAlive_invariant (es : List KAEvent)
    (hpre : ∀ n ∈ List.range (es.length + 1), kaDrops (es.take n) ≤ kaClones (es.take n)) :
    (∀ n ∈ List.range (es.length + 1), 0 ≤ (kaRun kaInit (es.take n)).count) ∧
    (kaRun kaInit es).holds = transitions01 0 es ∧
    (kaRun kaInit es).releases = transitions10 0 es := by
  refine ⟨fun n hn => ?_, ?_, ?_⟩
  · rw [kaRun_count]
    have := hpre n hn
    simp only [kaInit]
    omega
  · rw [kaRun_holds]
    simp [kaInit]
  · rw [kaRun_releases]
    simp [kaInit]

theorem keepAlive_invariant_witness :
    (kaRun kaInit [KAEvent.clone, KAEvent.drop, KAEvent.clone, KAEvent.drop]).holds =
      transitions01 0 [KAEvent.clone, KAEvent.drop, KAEvent.clone, KAEvent.drop] ∧
    (kaRun kaInit [KAEvent.clone, KAEvent.drop, KAEvent.clone, KAEvent.drop]).releases =
      transitions10 0 [KAEvent.clone, KAEvent.drop, KAEvent.clone, KAEvent.drop] :=
  (keepAlive_invariant [KAEvent.clone, KAEvent.drop, KAEvent.clone, KAEvent.drop] (by decide)).2

/-- C3: send fails with QueueClosed exactly when the channel is closed; an
open-channel send never fails and appends the task to the unbounded queue;
a closed-channel send leaves the state unchanged, so the task is dropped
without running; and once a reachable state is closed it stays closed,
every later send fails with QueueClosed, and the executed list never grows
again (the tasks that were pending at close were discarded, not run). -/
theorem send_fails_iff_closed :
    (∀ (s : SysState) (t : QTask),
      ((send s t).2 = some SendError.queueClosed ↔ s.closed = true) ∧
      (s.closed = true → (send s t).1 = s) ∧
      (s.closed = false → (send s t).2 = none ∧ (send s t).1.queue = s.queue ++ [t])) ∧
    (∀ (es es' : List SysEvent),
      (sysRun initState es).closed = true →
      (sysRun (sysRun initState es) es').closed = true ∧
      (∀ t : QTask,
        (send (sysRun (sysRun initState es) es') t).2 = some SendError.queueClosed) ∧
      (sysRun (sysRun initState es) es').executed = (sysRun initState es).executed) := by
  constructor
  · intro s t
    refine ⟨?_, fun hc => ?_, fun hc => ?_⟩
    · cases hc : s.closed <;> simp [send, hc]
    · simp [send, hc]
    · simp [send, hc]
  · intro es es' hc
    have hq : (sysRun initState es).queue = [] := (good_reachable es).2.2.1 hc
    obtain ⟨b1, b2, b3, _⟩ := closed_frozen (sysRun initState es) es' hc hq
    exact ⟨b1, fun t => by simp [send, b1], b3⟩

/-- C4: in every reachable state the host's uncaught-failure report list is
exactly the failing tasks among the executed ones, in execution order, so
each failing task is reported exactly once and non-failing tasks never are;
the producer-visible outcome of a send is only success or QueueClosed,
independent of whether the task will fail; and the driver consumes a task
exactly once whether or not it fails and keeps draining: a full drain
executes every queued task. -/
theorem taskFailure_routing (es : List SysEvent) :
    ((sysRun initState es).reported =
      (sysRun initState es).executed.filter (fun u => u.fails)) ∧
    (∀ u : QTask, u.fails = true →
      (sysRun initState es).reported.count u = (sysRun initState es).executed.count u) ∧
    (∀ u : QTask, u.fails = false → (sysRun initState es).reported.count u = 0) ∧
    (∀ (sx : SysState) (u : QTask),
      (send sx u).2 = none ∨ (send sx u).2 = some SendError.queueClosed) ∧
    (∀ (sx : SysState) (t : QTask) (ts : List QTask), sx.queue = t :: ts →
      (execOne sx).queue = ts ∧ (execOne sx).executed = sx.executed ++ [t]) ∧
    (∀ sx : SysState,
      (drainState sx).executed = sx.executed ++ sx.queue ∧ (drainState sx).queue = []) := by
  have h4 := (good_reachable es).2.2.2
  refine ⟨h4, fun u hu => ?_, fun u hu => ?_, fun sx u => ?_, fun sx t ts hq => ?_, fun sx => ?_⟩
  · rw [h4, count_filter_fails _ u hu]
  · rw [h4, count_filter_not_fails _ u hu]
  · cases hc : sx.closed <;> simp [send, hc]
  · constructor <;> simp [execOne, hq]
  · obtain ⟨d1, d2, _, _⟩ := drainState_spec sx
    exact ⟨d2, d1⟩

/-- C5: a blocking submission whose timeout elapses before the managed
thread has executed the bound callback and delivered its result returns a
Timeout failure to the calling producer thread, yet the task is not
cancelled: the managed thread still drains the channel, so the submitted
task is executed and its effect remains observable in the resulting
state. -/
theorem schedule_blocking_timeout (th : TaskHandler) (s : SysState) (args : Nat)
    (lat tmo : Nat) (hopen : s.closed = false) (hlt : tmo < lat) :
    (schedule_blocking th s args lat tmo).2 = Except.error ScheduleError.timeout ∧
    mkTask th args ∈ (schedule_blocking th s args lat tmo).1.executed ∧
    (schedule_blocking th s args lat tmo).1.queue = [] := by
  have hnle : ¬(lat ≤ tmo) := by omega
  simp only [schedule_blocking, hopen, Bool.false_eq_true, if_false]
  refine ⟨by simp [hnle], ?_, (drainState_spec _).1⟩
  obtain ⟨_, d2, _, _⟩ := drainState_spec (send s (mkTask th args)).1
  rw [d2]
  have hqs : (send s (mkTask th args)).1.queue = s.queue ++ [mkTask th args] := by
    simp [send, hopen]
  rw [hqs]
  simp

theorem schedule_blocking_timeout_witness :
    (schedule_blocking { callback := 0, cbFails := false } initState 0 1 0).2 =
      Except.error ScheduleError.timeout ∧
    mkTask { callback := 0, cbFails := false } 0 ∈
      (schedule_blocking { callback := 0, cbFails := false } initState 0 1 0).1.executed ∧
    (schedule_blocking { callback := 0, cbFails := false } initState 0 1 0).1.queue = [] :=
  schedule_blocking_timeout { callback := 0, cbFails := false } initState 0 1 0 rfl (by decide)

/-- C6: dropping a PersistentHandle clone on a non-managed thread is never
performed synchronously: the drop itself releases no reference-table slot
and frees nothing, it only enqueues a disposal task. For every interleaving
of the m clone drops with the disposal tasks they enqueue (no disposal runs
before its drop was enqueued, at most m drops), the underlying object is
freed at most once, it is freed exactly once when all m disposal tasks have
run on the managed thread, and it is not freed at all before then: no
double-free and no leak, even under concurrent disposal from clones. -/
theorem persistentHandle_deferred_disposal (m : Nat) (es : List PHEvent)
    (hm : 1 ≤ m)
    (hpre : ∀ n ∈ List.range (es.length + 1), phRuns (es.take n) ≤ phDrops (es.take n))
    (hdm : phDrops es ≤ m) :
    (∀ s : PHState, (phDrop s).frees = s.frees ∧ (phDrop s).slots = s.slots) ∧
    (phRun { slots := m, pending := 0, frees := 0 } es).frees ≤ 1 ∧
    (phRuns es = m → (phRun { slots := m, pending := 0, frees := 0 } es).frees = 1) ∧
    (phRuns es < m → (phRun { slots := m, pending := 0, frees := 0 } es).frees = 0) := by
  have hpre' : ∀ n, phRuns (es.take n) ≤ phDrops (es.take n) := by
    intro n
    rcases le_or_lt n es.length with hn | hn
    · exact hpre n (List.mem_range.mpr (by omega))
    · rw [List.take_of_length_le (le_of_lt hn)]
      have := hpre es.length (List.mem_range.mpr (by omega))
      rwa [List.take_length] at this
  have hs := phRun_spec m es hpre' hdm
  refine ⟨fun s => ⟨rfl, rfl⟩, ?_, fun hr => ?_, fun hr => ?_⟩
  · rw [hs]
    show (if m ≤ phRuns es ∧ 1 ≤ m then 1 else 0) ≤ 1
    split_ifs <;> omega
  · rw [hs]
    show (if m ≤ phRuns es ∧ 1 ≤ m then 1 else 0) = 1
    split_ifs with hcond
    · rfl
    · exact absurd ⟨by omega, hm⟩ hcond
  · rw [hs]
    show (if m ≤ phRuns es ∧ 1 ≤ m then 1 else 0) = 0
    split_ifs with hcond
    · omega
    · rfl

theorem persistentHandle_deferred_disposal_witness :
    (phRun { slots := 2, pending := 0, frees := 0 }
      [PHEvent.dropClone, PHEvent.dropClone, PHEvent.runDisposal, PHEvent.runDisposal]).frees ≤ 1 :=
  (persistentHandle_deferred_disposal 2
    [PHEvent.dropClone, PHEvent.dropClone, PHEvent.runDisposal, PHEvent.runDisposal]
    (by decide) (by decide) (by decide)).2.1

/-- C7: on a wake with the managed context available, the driver pops and
executes exactly one task per iteration and re-checks the queue after each,
absorbing some number k of the arrival batches delivered during the drain:
everything in the queue at wake plus those k batches is executed, in FIFO
order, before the driver yields, and the drain ends with the queue observed
empty; with no arrivals the entire queue is executed; when the managed
context is unavailable nothing is executed and the queue is untouched. -/
theorem driver_drain_loop (q : List QTask) (as : List (List QTask)) :
    driverWake false q as = ([], q, as) ∧
    (∃ k, k ≤ as.length ∧
      driverWake true q as = (q ++ (as.take k).flatten, [], as.drop k)) ∧
    driverWake true q [] = (q, [], []) := by
  refine ⟨by simp [driverWake], ?_, by simp [driverWake, drainRun_nil_arrivals]⟩
  obtain ⟨k, hk, heq⟩ := drainRun_spec as q
  exact ⟨k, hk, by simp [driverWake, heq]⟩

/-- C8: cloning a send handle never fails: it returns a handle to the same
underlying channel and increments the KeepAliveCounter by exactly one,
firing the hold notification exactly when the count was zero; dropping a
handle decrements the counter by exactly one, and fires the release (allow
exit) notification exactly on the decrement that reaches zero. -/
theorem handle_clone_drop (h : QueueHandle) (ka : KAState) :
    (cloneHandle h ka).1.chan = h.chan ∧
    (cloneHandle h ka).2.count = ka.count + 1 ∧
    (dropHandle ka).count = ka.count - 1 ∧
    (ka.count = 1 → (dropHandle ka).releases = ka.releases + 1) ∧
    (ka.count ≠ 1 → (dropHandle ka).releases = ka.releases) ∧
    (ka.count = 0 → (cloneHandle h ka).2.holds = ka.holds + 1) ∧
    (ka.count ≠ 0 → (cloneHandle h ka).2.holds = ka.holds) := by
  refine ⟨rfl, rfl, rfl, fun h1 => ?_, fun h1 => ?_, fun h0 => ?_, fun h0 => ?_⟩
  · simp [dropHandle, kaStep, h1]
  · simp [dropHandle, kaStep, h1]
  · simp [cloneHandle, kaStep, h0]
  · simp [cloneHandle, kaStep, h0]

/-- C9: TaskHandler is a thin layer over the queue: it binds one
PersistentHandle at construction, builds one task per call, and its
non-blocking `schedule(args)`, written from its own specification, computes
exactly what `TaskQueue.send` computes on the pre-built task, state and
producer-visible result alike. -/
theorem taskHandler_schedule_refines_send (th : TaskHandler) (s : SysState) (args : Nat) :
    schedule th s args = send s (mkTask th args) := by
  cases hc : s.closed <;> simp [schedule, send, hc]

/-- C10 counterexample: with napi-4, event-queue-api and event-handler-api
enabled but napi-1 disabled, `src/event/mod.rs` raises no compile error and
exports both EventQueue and EventHandler, so the claim that the two APIs
never coexist in one build fails for this feature valuation. -/
theorem featureGate_coexist_counterexample :
    eventCompileError
        { napi1 := false, napi4 := true, eventQueueApi := true, eventHandlerApi := true } = false ∧
    eventQueueExported
        { napi1 := false, napi4 := true, eventQueueApi := true, eventHandlerApi := true } = true ∧
    eventHandlerExported
        { napi1 := false, napi4 := true, eventQueueApi := true, eventHandlerApi := true } = true := by
  decide

/-- C10 amended: EventQueue and EventQueueError are exported iff napi-4 and
event-queue-api are both enabled; EventHandler is exported iff
event-handler-api is enabled and napi-1 is not; enabling napi-1 together
with event-handler-api is rejected with a compile-time error; and for
feature valuations respecting the crate's implication napi-4 -> napi-1
(declared outside the snapshot), no accepted build exports both APIs. -/
theorem featureGate_partition (f : FeatureSet) (himp : f.napi4 = true → f.napi1 = true) :
    (eventQueueExported f = true ↔ f.napi4 = true ∧ f.eventQueueApi = true) ∧
    (eventHandlerExported f = true ↔ f.napi1 = false ∧ f.eventHandlerApi = true) ∧
    (eventCompileError f = true ↔ f.napi1 = true ∧ f.eventHandlerApi = true) ∧
    ¬(eventCompileError f = false ∧
      eventQueueExported f = true ∧ eventHandlerExported f = true) := by
  rcases f with ⟨n1, n4, eqa, eha⟩
  revert himp
  cases n1 <;> cases n4 <;> cases eqa <;> cases eha <;> decide

theorem featureGate_partition_witness :
    (eventQueueExported
        { napi1 := true, napi4 := true, eventQueueApi := true, eventHandlerApi := false } = true ↔
      ({ napi1 := true, napi4 := true, eventQueueApi := true,
          eventHandlerApi := false } : FeatureSet).napi4 = true ∧
      ({ napi1 := true, napi4 := true, eventQueueApi := true,
          eventHandlerApi := false } : FeatureSet).eventQueueApi = true) ∧
    (eventHandlerExported
        { napi1 := true, napi4 := true, eventQueueApi := true, eventHandlerApi := false } = true ↔
      ({ napi1 := true, napi4 := true, eventQueueApi := true,
          eventHandlerApi := false } : FeatureSet).napi1 = false ∧
      ({ napi1 := true, napi4 := true, eventQueueApi := true,
          eventHandlerApi := false } : FeatureSet).eventHandlerApi = true) ∧
    (eventCompileError
        { napi1 := true, napi4 := true, eventQueueApi := true, eventHandlerApi := false } = true ↔
      ({ napi1 := true, napi4 := true, eventQueueApi := true,
          eventHandlerApi := false } : FeatureSet).napi1 = true ∧
      ({ napi1 := true, napi4 := true, eventQueueApi := true,
          eventHandlerApi := false } : FeatureSet).eventHandlerApi = true) ∧
    ¬(eventCompileError
        { napi1 := true, napi4 := true, eventQueueApi := true, eventHandlerApi := false } = false ∧
      eventQueueExported
        { napi1 := true, napi4 := true, eventQueueApi := true, eventHandlerApi := false } = true ∧
      eventHandlerExported
        { napi1 := true, napi4 := true, eventQueueApi := true, eventHandlerApi := false } = true) :=
  featureGate_partition
    { napi1 := true, napi4 := true, eventQueueApi := true, eventHandlerApi := false }
    (fun _ => rfl)
